import Mathlib

/-
Verification of the embedding aggregator of the
`sentence-transformers-tensorflow` repository
(`TFSentenceTransformer` in `src/inference/sentence-transformers.ipynb`).

The aggregator acts independently on each batch row, so a row is modelled
directly: token embeddings of a row are a function `t ↦ h ↦ value`
(token index, hidden index), the attention mask a function `t ↦ value`.
Tensor values are idealised as exact rationals for the pooling step and as
real numbers for the normalization step (which needs a square root).
Dtype and shape behaviour of the TensorFlow ops is modelled separately at
the type level where a claim is about it.
-/

namespace TFSentenceTransformer

/-- Largest finite `float32` value, `(2 - 2⁻²³) · 2¹²⁷`; this is
`tf.float32.max`, the upper clamp bound used in `mean_pooling`. -/
def f32max : ℚ := 2 ^ 128 - 2 ^ 104

/-- `tf.clip_by_value x lo hi`: clamp `x` elementwise into `[lo, hi]`. -/
def clip_by_value (x lo hi : ℚ) : ℚ := min (max x lo) hi

/-- `TFSentenceTransformer.mean_pooling` on one batch row.
`T` is the sequence length, `token_embeddings t h` the hidden value of
token `t` at hidden index `h`, `attention_mask t` the (integer) mask value
of token `t`.  Mirrors the source line

`reduce_sum(token_embeddings * input_mask_expanded, axis=1) /
 clip_by_value(reduce_sum(input_mask_expanded, axis=1), 1e-9, tf.float32.max)`

where `input_mask_expanded` is the mask cast to float and broadcast along
the hidden dimension, so its axis-1 sum at every hidden index equals the
cast mask sum of the row. -/
def mean_pooling (T : ℕ) (token_embeddings : ℕ → ℕ → ℚ)
    (attention_mask : ℕ → ℕ) : ℕ → ℚ :=
  fun h =>
    (∑ t ∈ Finset.range T, token_embeddings t h * (attention_mask t : ℚ)) /
      clip_by_value (∑ t ∈ Finset.range T, (attention_mask t : ℚ)) (1e-9) f32max

/-- Row-wise L2 norm over hidden indices `0, …, H-1`: the norm computed by
`tf.linalg.normalize(embeddings, 2, axis=1)`. -/
noncomputable def l2norm (H : ℕ) (v : ℕ → ℝ) : ℝ :=
  Real.sqrt (∑ h ∈ Finset.range H, v h ^ 2)

/-- `TFSentenceTransformer.normalize` on one row:
`tf.linalg.normalize(embeddings, 2, axis=1)` divides the row by its L2
norm (the op applies no epsilon floor to the norm).  Real division is
exact here; the value of a division whose denominator is zero is refined
by `normalizeF` below. -/
noncomputable def normalize (H : ℕ) (v : ℕ → ℝ) : ℕ → ℝ :=
  fun h => v h / l2norm H v

/-- IEEE-style division outcome: `some` of the exact quotient when the
denominator is nonzero, `none` when the denominator is zero (in float32,
`0/0` is NaN and `x/0` is ±Inf — in either case not a finite value). -/
noncomputable def fdiv (x y : ℝ) : Option ℝ :=
  if y = 0 then none else some (x / y)

/-- Refinement of `normalize` recording non-finite results: each component
of the row is divided by the row's L2 norm with IEEE division. -/
noncomputable def normalizeF (H : ℕ) (v : ℕ → ℝ) : ℕ → Option ℝ :=
  fun h => fdiv (v h) (l2norm H v)

/-- `TFSentenceTransformer.call` after the black-box transformer forward
pass, on one batch row: masked mean pooling, then (when the `normalize`
flag is set) row-wise L2 normalization. -/
noncomputable def call (T H : ℕ) (token_embeddings : ℕ → ℕ → ℚ)
    (attention_mask : ℕ → ℕ) (normalize_flag : Bool) : ℕ → ℝ :=
  let embeddings : ℕ → ℝ := fun h => ((mean_pooling T token_embeddings attention_mask h : ℚ) : ℝ)
  if normalize_flag then normalize H embeddings else embeddings

/-- The set of unmasked (mask value 1) token positions of a row. -/
def unmasked (T : ℕ) (attention_mask : ℕ → ℕ) : Finset ℕ :=
  (Finset.range T).filter (fun t => attention_mask t = 1)

/-- Spec-side definition (for comparison with `mean_pooling`): the
arithmetic mean of exactly the unmasked embedding vectors of the row. -/
def unmasked_mean (T : ℕ) (token_embeddings : ℕ → ℕ → ℚ)
    (attention_mask : ℕ → ℕ) : ℕ → ℚ :=
  fun h => (∑ t ∈ unmasked T attention_mask, token_embeddings t h) /
    ((unmasked T attention_mask).card : ℚ)

/-- TensorFlow dtypes relevant to the aggregator. -/
inductive DType where
  | float16 : DType
  | float32 : DType
  | float64 : DType
deriving DecidableEq

/-- The dtype of `input_mask_expanded`: the source casts the broadcast mask
with `tf.cast(..., tf.float32)`, a fixed target dtype that does not depend
on the dtype of `token_embeddings` (the parameter). -/
def input_mask_expanded_dtype (token_embeddings_dtype : DType) : DType :=
  DType.float32

/-- Dtype of a TensorFlow elementwise binary op: TensorFlow requires the
two operand dtypes to match (no implicit promotion); a mismatch raises an
`InvalidArgumentError`, modelled as `none`. -/
def binop_dtype (a b : DType) : Option DType :=
  if a = b then some a else none

/-- Dtype of the `mean_pooling` output as a function of the dtype of
`token_embeddings`: the product `token_embeddings * input_mask_expanded`
and then the division by the clipped mask sum (whose dtype is that of
`input_mask_expanded`; `reduce_sum` and `clip_by_value` preserve dtype). -/
def mean_pooling_dtype (d : DType) : Option DType := do
  let p ← binop_dtype d (input_mask_expanded_dtype d)
  binop_dtype p (input_mask_expanded_dtype d)

/-- Shape of `tf.expand_dims(attention_mask, -1)` for a `(B, T)` mask. -/
def expand_dims_last_shape (B T : ℕ) : ℕ × ℕ × ℕ := (B, T, 1)

/-- One dimension of `tf.broadcast_to`: a source dimension must equal the
target dimension or be 1. -/
def broadcast_dim (src tgt : ℕ) : Option ℕ :=
  if src = tgt ∨ src = 1 then some tgt else none

/-- Shape of `tf.broadcast_to(src, tgt)` for rank-3 shapes. -/
def broadcast_to_shape (src tgt : ℕ × ℕ × ℕ) : Option (ℕ × ℕ × ℕ) := do
  let b ← broadcast_dim src.1 tgt.1
  let t ← broadcast_dim src.2.1 tgt.2.1
  let h ← broadcast_dim src.2.2 tgt.2.2
  pure (b, t, h)

/-- Token embeddings of the end-to-end scenario: three token vectors
`[1,1,1,1]`, `[2,2,2,2]`, `[9,9,9,9]` (constant in the hidden index). -/
def e2e_embeddings : ℕ → ℕ → ℚ :=
  fun t _ => if t = 0 then 1 else if t = 1 then 2 else 9

/-- Attention mask of the end-to-end scenario: `[1, 1, 0]`. -/
def e2e_mask : ℕ → ℕ := fun t => if t < 2 then 1 else 0

/-- With a 0/1 mask the numerator sum of `mean_pooling` collapses to the sum
over the unmasked positions. -/
theorem masked_num_sum (T : ℕ) (e : ℕ → ℕ → ℚ) (m : ℕ → ℕ)
    (hmask : ∀ t < T, m t = 0 ∨ m t = 1) (h : ℕ) :
    (∑ t ∈ Finset.range T, e t h * (m t : ℚ)) = ∑ t ∈ unmasked T m, e t h := by
  rw [unmasked, Finset.sum_filter]
  refine Finset.sum_congr rfl ?_
  intro t ht
  rcases hmask t (Finset.mem_range.mp ht) with h0 | h1
  · simp [h0]
  · simp [h1]

/-- With a 0/1 mask the denominator sum of `mean_pooling` equals the number
of unmasked positions. -/
theorem mask_den_sum (T : ℕ) (m : ℕ → ℕ)
    (hmask : ∀ t < T, m t = 0 ∨ m t = 1) :
    (∑ t ∈ Finset.range T, (m t : ℚ)) = ((unmasked T m).card : ℚ) := by
  rw [unmasked, Finset.card_filter]
  push_cast
  refine Finset.sum_congr rfl ?_
  intro t ht
  rcases hmask t (Finset.mem_range.mp ht) with h0 | h1
  · simp [h0]
  · simp [h1]

/-- The clamp leaves any value in `[1, f32max]` unchanged. -/
theorem clip_of_one_le (x : ℚ) (h1 : 1 ≤ x) (h2 : x ≤ f32max) :
    clip_by_value x (1e-9) f32max = x := by
  have hlo : (1e-9 : ℚ) ≤ x := by
    have : (1e-9 : ℚ) ≤ 1 := by norm_num
    linarith
  rw [clip_by_value, max_eq_left hlo, min_eq_left h2]

/-- Claim C1: with a 0/1 mask having `k ≥ 1` ones, the pooled
(pre-normalize) row equals the arithmetic mean of exactly the `k` unmasked
embedding vectors, and changing the embedding values at masked positions
does not change the result. -/
theorem mean_pooling_eq_unmasked_mean (T : ℕ) (e : ℕ → ℕ → ℚ) (m : ℕ → ℕ)
    (hmask : ∀ t < T, m t = 0 ∨ m t = 1)
    (hk : 1 ≤ (unmasked T m).card)
    (hkmax : ((unmasked T m).card : ℚ) ≤ f32max) :
    (∀ h, mean_pooling T e m h = unmasked_mean T e m h) ∧
    (∀ e2 : ℕ → ℕ → ℚ, (∀ t h, t ∈ unmasked T m → e2 t h = e t h) →
      ∀ h, mean_pooling T e2 m h = mean_pooling T e m h) := by
  have hden : clip_by_value (∑ t ∈ Finset.range T, (m t : ℚ)) (1e-9) f32max
      = ((unmasked T m).card : ℚ) := by
    rw [mask_den_sum T m hmask]
    exact clip_of_one_le _ (by exact_mod_cast hk) hkmax
  constructor
  · intro h
    simp only [mean_pooling, unmasked_mean]
    rw [hden, masked_num_sum T e m hmask h]
  · intro e2 he2 h
    simp only [mean_pooling]
    rw [hden, masked_num_sum T e m hmask h, masked_num_sum T e2 m hmask h]
    congr 1
    exact Finset.sum_congr rfl (fun t ht => he2 t h ht)

/-- Claim C1, witness at `T = 2`, all-ones mask, embeddings `e t h = t`. -/
theorem mean_pooling_eq_unmasked_mean_witness :
    (∀ t < 2, (fun _ : ℕ => 1) t = 0 ∨ (fun _ : ℕ => 1) t = 1) ∧
    1 ≤ (unmasked 2 (fun _ => 1)).card ∧
    ((unmasked 2 (fun _ => 1)).card : ℚ) ≤ f32max ∧
    ((∀ h, mean_pooling 2 (fun t _ => (t : ℚ)) (fun _ => 1) h
        = unmasked_mean 2 (fun t _ => (t : ℚ)) (fun _ => 1) h) ∧
     (∀ e2 : ℕ → ℕ → ℚ,
        (∀ t h, t ∈ unmasked 2 (fun _ => 1) → e2 t h = (fun t _ => (t : ℚ)) t h) →
        ∀ h, mean_pooling 2 e2 (fun _ => 1) h
          = mean_pooling 2 (fun t _ => (t : ℚ)) (fun _ => 1) h)) :=
  ⟨fun _ _ => Or.inr rfl, by decide, by norm_num [unmasked, f32max],
   mean_pooling_eq_unmasked_mean 2 (fun t _ => (t : ℚ)) (fun _ => 1)
     (fun _ _ => Or.inr rfl) (by decide) (by norm_num [unmasked, f32max])⟩

/-- Claim C2: for an all-zero mask row the pooled (pre-normalize) row is
exactly the zero vector, and the clamped denominator is strictly positive
(so the pooling step never divides by zero). -/
theorem mean_pooling_zero_mask (T : ℕ) (e : ℕ → ℕ → ℚ) (m : ℕ → ℕ)
    (hmask : ∀ t < T, m t = 0) :
    (∀ h, mean_pooling T e m h = 0) ∧
    0 < clip_by_value (∑ t ∈ Finset.range T, (m t : ℚ)) (1e-9) f32max := by
  have hsum : (∑ t ∈ Finset.range T, (m t : ℚ)) = 0 := by
    refine Finset.sum_eq_zero ?_
    intro t ht
    rw [hmask t (Finset.mem_range.mp ht)]
    norm_num
  refine ⟨?_, ?_⟩
  · intro h
    simp only [mean_pooling]
    have hnum : (∑ t ∈ Finset.range T, e t h * (m t : ℚ)) = 0 := by
      refine Finset.sum_eq_zero ?_
      intro t ht
      rw [hmask t (Finset.mem_range.mp ht)]
      norm_num
    rw [hnum, zero_div]
  · rw [hsum, clip_by_value, f32max]
    norm_num

/-- Claim C2, witness at `T = 2`, embeddings `e t h = 5`, zero mask. -/
theorem mean_pooling_zero_mask_witness :
    (∀ t < 2, (fun _ : ℕ => 0) t = 0) ∧
    ((∀ h, mean_pooling 2 (fun _ _ => (5 : ℚ)) (fun _ => 0) h = 0) ∧
     0 < clip_by_value (∑ t ∈ Finset.range 2, (((fun _ : ℕ => 0) t : ℕ) : ℚ))
       (1e-9) f32max) :=
  ⟨fun _ _ => rfl,
   mean_pooling_zero_mask 2 (fun _ _ => (5 : ℚ)) (fun _ => 0) (fun _ _ => rfl)⟩

/-- Claim C3, counterexample: on an all-zero row (`H = 2`) the L2 norm is
zero and `tf.linalg.normalize` divides the component `0` by the zero norm,
an IEEE `0/0`, so the first output component is the non-finite (NaN)
marker — the output is neither the zero vector nor NaN-free. -/
theorem normalize_zero_row_nan :
    l2norm 2 (fun _ => 0) = 0 ∧ normalizeF 2 (fun _ => 0) 0 = none := by
  have hnorm : l2norm 2 (fun _ => 0) = 0 := by
    simp [l2norm]
  exact ⟨hnorm, by simp [normalizeF, fdiv, hnorm]⟩

/-- Claim C3 amended: a row with zero L2 norm raises no runtime error, but
no zero-safety policy is applied: `tf.linalg.normalize` divides every
component by the zero norm, so every component of the output row is
non-finite (NaN, since the components of a zero-norm row are zero). -/
theorem normalize_zero_norm_row (H : ℕ) (v : ℕ → ℝ)
    (hnorm : l2norm H v = 0) :
    ∀ h, normalizeF H v h = none := by
  intro h
  simp [normalizeF, fdiv, hnorm]

/-- Claim C3 amended, witness on the all-zero row with `H = 3`. -/
theorem normalize_zero_norm_row_witness :
    l2norm 3 (fun _ => (0 : ℝ)) = 0 ∧
    ∀ h, normalizeF 3 (fun _ => (0 : ℝ)) h = none :=
  ⟨by simp [l2norm],
   normalize_zero_norm_row 3 (fun _ => (0 : ℝ)) (by simp [l2norm])⟩

/-- Claim C4, counterexample: for `float64` token embeddings the mask is
cast to `float32` — not to the embeddings' dtype — and the pooling multiply
is then not even well-typed (TensorFlow raises `InvalidArgumentError` on
the operand-dtype mismatch), so pooling does not work at float64 input
precision at all. -/
theorem mask_cast_dtype_counterexample :
    input_mask_expanded_dtype DType.float64 ≠ DType.float64 ∧
    mean_pooling_dtype DType.float64 = none := by
  decide

/-- Claim C4 amended: the mask is broadcast along the hidden dimension to
shape `(B, T, H)`, but is cast to `float32` unconditionally (regardless of
the token embeddings' dtype); consequently pooling is well-typed exactly
for `float32` token embeddings, where the output is `float32`, and fails
with a dtype mismatch for `float16` or `float64` embeddings. -/
theorem mask_broadcast_cast_float32 (B T H : ℕ) :
    broadcast_to_shape (expand_dims_last_shape B T) (B, T, H) = some (B, T, H) ∧
    (∀ d, input_mask_expanded_dtype d = DType.float32) ∧
    mean_pooling_dtype DType.float32 = some DType.float32 ∧
    mean_pooling_dtype DType.float16 = none ∧
    mean_pooling_dtype DType.float64 = none := by
  refine ⟨?_, fun _ => rfl, by decide, by decide, by decide⟩
  simp [broadcast_to_shape, expand_dims_last_shape, broadcast_dim]

/-- Claim C6: with the normalize flag false, `call` returns the masked-mean
pooling result unmodified — no normalization or any other transformation is
applied after pooling (the cast `ℚ → ℝ` is only the value embedding of this
model, not an operation of the code). -/
theorem call_no_normalize (T H : ℕ) (e : ℕ → ℕ → ℚ) (m : ℕ → ℕ) :
    ∀ h, call T H e m false h = ((mean_pooling T e m h : ℚ) : ℝ) :=
  fun _ => rfl

/-- Claim C8: determinism — two invocations of `call` on identical input
tensors, for either value of the normalize flag, produce identical
outputs. -/
theorem call_deterministic (T H : ℕ) (e1 e2 : ℕ → ℕ → ℚ) (m1 m2 : ℕ → ℕ)
    (nf : Bool) (he : e1 = e2) (hm : m1 = m2) :
    call T H e1 m1 nf = call T H e2 m2 nf := by
  rw [he, hm]

/-- Claim C8, witness at `T = 2`, `H = 3`, flag true. -/
theorem call_deterministic_witness :
    ((fun t _ : ℕ => (t : ℚ)) = (fun t _ : ℕ => (t : ℚ))) ∧
    ((fun _ : ℕ => 1) = (fun _ : ℕ => 1)) ∧
    call 2 3 (fun t _ => (t : ℚ)) (fun _ => 1) true
      = call 2 3 (fun t _ => (t : ℚ)) (fun _ => 1) true :=
  ⟨rfl, rfl,
   call_deterministic 2 3 (fun t _ => (t : ℚ)) (fun t _ => (t : ℚ))
     (fun _ => 1) (fun _ => 1) true rfl rfl⟩

/-- A row with a nonzero component among the first `H` has nonzero L2
norm. -/
theorem l2norm_ne_zero (H : ℕ) (v : ℕ → ℝ)
    (hnz : ∃ h ∈ Finset.range H, v h ≠ 0) : l2norm H v ≠ 0 := by
  obtain ⟨h0, hmem, hv⟩ := hnz
  have hS : 0 < ∑ h ∈ Finset.range H, v h ^ 2 := by
    refine Finset.sum_pos' (fun i _ => sq_nonneg (v i)) ⟨h0, hmem, ?_⟩
    exact lt_of_le_of_ne (sq_nonneg (v h0)) (Ne.symm (pow_ne_zero 2 hv))
  rw [l2norm]
  exact ne_of_gt (Real.sqrt_pos.mpr hS)

/-- Normalizing a row of nonzero norm yields a row of L2 norm exactly 1. -/
theorem l2norm_normalize (H : ℕ) (v : ℕ → ℝ) (hn : l2norm H v ≠ 0) :
    l2norm H (normalize H v) = 1 := by
  have hS0 : (0 : ℝ) ≤ ∑ h ∈ Finset.range H, v h ^ 2 :=
    Finset.sum_nonneg fun i _ => sq_nonneg (v i)
  have hSpos : 0 < ∑ h ∈ Finset.range H, v h ^ 2 := by
    rcases lt_or_eq_of_le hS0 with hlt | heq
    · exact hlt
    · exact absurd (by rw [l2norm, ← heq, Real.sqrt_zero]) hn
  have hsq : l2norm H v ^ 2 = ∑ h ∈ Finset.range H, v h ^ 2 :=
    Real.sq_sqrt hS0
  have hterm : ∀ h ∈ Finset.range H,
      normalize H v h ^ 2 = v h ^ 2 / (∑ i ∈ Finset.range H, v i ^ 2) := by
    intro h _
    simp only [normalize]
    rw [div_pow, hsq]
  rw [l2norm, Finset.sum_congr rfl hterm, ← Finset.sum_div,
    div_self (ne_of_gt hSpos), Real.sqrt_one]

/-- Claim C5: with the normalize flag true, every output row whose pooled
vector is nonzero has L2 norm exactly 1 (hence within the `1e-6`
tolerance). -/
theorem call_normalize_unit_norm (T H : ℕ) (e : ℕ → ℕ → ℚ) (m : ℕ → ℕ)
    (hnz : ∃ h ∈ Finset.range H, mean_pooling T e m h ≠ 0) :
    l2norm H (call T H e m true) = 1 ∧
    |l2norm H (call T H e m true) - 1| ≤ 1e-6 := by
  have hnz2 : ∃ h ∈ Finset.range H, ((mean_pooling T e m h : ℚ) : ℝ) ≠ 0 := by
    obtain ⟨h0, hmem, hv⟩ := hnz
    exact ⟨h0, hmem, by exact_mod_cast hv⟩
  have h1 : l2norm H (call T H e m true) = 1 :=
    l2norm_normalize H _ (l2norm_ne_zero H _ hnz2)
  refine ⟨h1, ?_⟩
  rw [h1]
  norm_num

/-- Claim C5, witness at `T = 1`, `H = 1`, embedding value 1, mask 1. -/
theorem call_normalize_unit_norm_witness :
    (∃ h ∈ Finset.range 1,
      mean_pooling 1 (fun _ _ => (1 : ℚ)) (fun _ => 1) h ≠ 0) ∧
    (l2norm 1 (call 1 1 (fun _ _ => (1 : ℚ)) (fun _ => 1) true) = 1 ∧
     |l2norm 1 (call 1 1 (fun _ _ => (1 : ℚ)) (fun _ => 1) true) - 1| ≤ 1e-6) :=
  ⟨⟨0, Finset.mem_range.mpr one_pos, by
      norm_num [mean_pooling, clip_by_value, f32max]⟩,
   call_normalize_unit_norm 1 1 (fun _ _ => (1 : ℚ)) (fun _ => 1)
     ⟨0, Finset.mem_range.mpr one_pos, by
      norm_num [mean_pooling, clip_by_value, f32max]⟩⟩

/-- Claim C10: row-wise L2 normalization is idempotent on rows of nonzero
norm — normalizing an already-normalized row returns it unchanged. -/
theorem normalize_idempotent (H : ℕ) (v : ℕ → ℝ) (hn : l2norm H v ≠ 0) :
    normalize H (normalize H v) = normalize H v := by
  funext h
  calc normalize H (normalize H v) h
      = normalize H v h / l2norm H (normalize H v) := rfl
    _ = normalize H v h / 1 := by rw [l2norm_normalize H v hn]
    _ = normalize H v h := div_one _

/-- Claim C10, witness on the constant-1 row with `H = 1`. -/
theorem normalize_idempotent_witness :
    l2norm 1 (fun _ => (1 : ℝ)) ≠ 0 ∧
    normalize 1 (normalize 1 (fun _ => (1 : ℝ)))
      = normalize 1 (fun _ => (1 : ℝ)) :=
  ⟨by simp [l2norm], normalize_idempotent 1 (fun _ => (1 : ℝ)) (by simp [l2norm])⟩

/-- Claim C9: masked mean pooling is invariant under a permutation of the
token positions applied identically to the embeddings and the mask. -/
theorem mean_pooling_perm_invariant (T : ℕ) (e : ℕ → ℕ → ℚ) (m : ℕ → ℕ)
    (σ : Equiv.Perm ℕ) (hσ : ∀ t, t < T ↔ σ t < T) :
    mean_pooling T (fun t h => e (σ t) h) (fun t => m (σ t))
      = mean_pooling T e m := by
  have hmem : ∀ t, t ∈ Finset.range T ↔ σ t ∈ Finset.range T := by
    intro t
    simp only [Finset.mem_range]
    exact hσ t
  funext h
  simp only [mean_pooling]
  have hnum : (∑ t ∈ Finset.range T, e (σ t) h * ((m (σ t) : ℚ)))
      = ∑ t ∈ Finset.range T, e t h * (m t : ℚ) :=
    Finset.sum_equiv σ hmem (fun i _ => rfl)
  have hden : (∑ t ∈ Finset.range T, ((m (σ t) : ℚ)))
      = ∑ t ∈ Finset.range T, (m t : ℚ) :=
    Finset.sum_equiv σ hmem (fun i _ => rfl)
  rw [hnum, hden]

/-- Claim C9, witness: swapping the two token positions of a `T = 2` row
leaves the pooled row unchanged. -/
theorem mean_pooling_perm_invariant_witness :
    (∀ t, t < 2 ↔ Equiv.swap 0 1 t < 2) ∧
    mean_pooling 2 (fun t h => ((Equiv.swap 0 1 t : ℕ) : ℚ) + (h : ℚ))
        (fun t => (fun _ : ℕ => 1) (Equiv.swap 0 1 t))
      = mean_pooling 2 (fun t h => ((t : ℚ) + (h : ℚ))) (fun _ => 1) := by
  have hswap : ∀ t, t < 2 ↔ Equiv.swap 0 1 t < 2 := by
    intro t
    match t with
    | 0 => rw [Equiv.swap_apply_left]; decide
    | 1 => rw [Equiv.swap_apply_right]; decide
    | (n + 2) => rw [Equiv.swap_apply_of_ne_of_ne (by omega) (by omega)]
  exact ⟨hswap,
    mean_pooling_perm_invariant 2 (fun t h => ((t : ℚ) + (h : ℚ)))
      (fun _ => 1) (Equiv.swap 0 1) hswap⟩

/-- Claim C7: for token embeddings `[[1,1,1,1],[2,2,2,2],[9,9,9,9]]`
(shape `(1,3,4)`) and mask `[1,1,0]`, the pooled (pre-normalize) row is
`[1.5, 1.5, 1.5, 1.5]` — the mean of the first two token vectors, the
third ignored — and the normalized row is `[0.5, 0.5, 0.5, 0.5]`. -/
theorem e2e_scenario :
    (∀ h, mean_pooling 3 e2e_embeddings e2e_mask h = 3 / 2) ∧
    (∀ h, call 3 4 e2e_embeddings e2e_mask true h = 1 / 2) := by
  have hpool : ∀ h, mean_pooling 3 e2e_embeddings e2e_mask h = 3 / 2 := by
    intro h
    have hs : (∑ t ∈ Finset.range 3, (e2e_mask t : ℚ)) = 2 := by
      rw [Finset.sum_range_succ, Finset.sum_range_succ, Finset.sum_range_one]
      norm_num [e2e_mask]
    have hn : (∑ t ∈ Finset.range 3, e2e_embeddings t h * (e2e_mask t : ℚ)) = 3 := by
      rw [Finset.sum_range_succ, Finset.sum_range_succ, Finset.sum_range_one]
      norm_num [e2e_embeddings, e2e_mask]
    have hclip : clip_by_value 2 (1e-9) f32max = 2 :=
      clip_of_one_le 2 (by norm_num) (by norm_num [f32max])
    simp only [mean_pooling]
    rw [hn, hs, hclip]
  refine ⟨hpool, ?_⟩
  intro h
  have hnorm : l2norm 4
      (fun h2 => ((mean_pooling 3 e2e_embeddings e2e_mask h2 : ℚ) : ℝ)) = 3 := by
    have hterm : ∀ h2 ∈ Finset.range 4,
        (((mean_pooling 3 e2e_embeddings e2e_mask h2 : ℚ) : ℝ)) ^ 2
          = ((3 : ℝ) / 2) ^ 2 := by
      intro h2 _
      rw [hpool h2]
      norm_num
    rw [l2norm, Finset.sum_congr rfl hterm, Finset.sum_const, Finset.card_range]
    rw [show (4 : ℕ) • ((3 : ℝ) / 2) ^ 2 = 3 ^ 2 by ring]
    exact Real.sqrt_sq (by norm_num)
  calc call 3 4 e2e_embeddings e2e_mask true h
      = ((mean_pooling 3 e2e_embeddings e2e_mask h : ℚ) : ℝ) /
        l2norm 4 (fun h2 => ((mean_pooling 3 e2e_embeddings e2e_mask h2 : ℚ) : ℝ)) := rfl
    _ = 1 / 2 := by rw [hpool h, hnorm]; norm_num

end TFSentenceTransformer
